import Mathlib

/-!
Verification of the blog loader (`src/utils/blogLoader.js`) and the markdown
renderer (`src/components/BlogPost.jsx`) of this repository.

The loader is embedded parametrically over the front-matter parsing library
(`gray-matter`): a parse oracle of type `String → Option (FrontMatter × String)`
returns `none` exactly when `matter(content)` would throw.  The bundled content
table `blogContents` is embedded as a list of `(filename, content)` pairs.

JavaScript `new Date(s)` on the ISO `YYYY-MM-DD` strings used by the posts is
embedded as `dateVal`, which yields a numeric key that is order-isomorphic to
the epoch-milliseconds value for every valid ISO calendar date; a date that
does not parse is given the junk key 0 (the claims about sorting are stated
under the assumption that all dates are valid, matching the specification).
The array sort is embedded as a stable insertion sort, matching the stable
sort required of `Array.prototype.sort` by ES2019 for consistent comparators.
-/

namespace Blog

/-! ### Character-list utilities shared by the loader and the renderer -/

/-- Boolean test that `pat` is an initial segment of `s` (JavaScript
`String.startsWith`, on code points). -/
def leadsWith : List Char → List Char → Bool
  | [], _ => true
  | _ :: _, [] => false
  | p :: ps, c :: cs => p == c && leadsWith ps cs

/-- Split `s` at the first occurrence of the pattern `pat`: returns the part
before the occurrence and the part after it.  This is the primitive behind the
JavaScript string `replace` with a string pattern and behind lazy regular
expression scanning. -/
def splitFirst (pat : List Char) : List Char → Option (List Char × List Char)
  | [] => if pat.isEmpty then some ([], []) else none
  | c :: cs =>
    if leadsWith pat (c :: cs) then some ([], (c :: cs).drop pat.length)
    else
      match splitFirst pat cs with
      | some (pre, suf) => some (c :: pre, suf)
      | none => none

/-- Remove the first occurrence of `pat` from `s` (JavaScript
`s.replace(pat, '')` with a string pattern). -/
def removeFirst (pat : List Char) (s : List Char) : List Char :=
  match splitFirst pat s with
  | none => s
  | some (pre, suf) => pre ++ suf

/-- The character class of the JavaScript regular-expression escape `\s`
(whitespace), restricted to the code points it actually names. -/
def jsWS (c : Char) : Bool :=
  c == ' ' || c == '\t' || c == '\n' || c == '\r' ||
  c == '\u000b' || c == '\u000c' ||
  c == '\u00a0' || c == '\u1680' ||
  (0x2000 ≤ c.toNat && c.toNat ≤ 0x200a) ||
  c == '\u2028' || c == '\u2029' || c == '\u202f' || c == '\u205f' ||
  c == '\u3000' || c == '\ufeff'

/-- `s.split(newline)` of JavaScript: splitting the empty string yields one
empty piece, and every newline separates two pieces. -/
def splitLines : List Char → List (List Char)
  | [] => [[]]
  | c :: cs =>
    if c == '\n' then [] :: splitLines cs
    else
      match splitLines cs with
      | [] => [[c]]
      | l :: ls => (c :: l) :: ls

/-- `arr.join(sep)` of JavaScript on a list of character lists. -/
def joinSep (sep : Char) : List (List Char) → List Char
  | [] => []
  | [l] => l
  | l :: ls => l ++ sep :: joinSep sep ls

/-! ### The loader (`blogLoader.js`) -/

/-- The front-matter fields the loader reads from `gray-matter`.  A field the
document omits is `none` (JavaScript `undefined`). -/
structure FrontMatter where
  title : Option String
  date : Option String
  excerpt : Option String
  category : Option String
  tags : Option (List String)
deriving DecidableEq

/-- One loaded blog post, exactly the object literal built in
`loadBlogPosts`. -/
structure Post where
  id : Nat
  slug : String
  title : Option String
  date : Option String
  excerpt : Option String
  content : String
  category : String
  tags : List String
deriving DecidableEq

/-- The post object constructed for one document: `slug` drops the first
`.md` of the filename, `category` is `data.category || 'General'`
(JavaScript: both `undefined` and the empty string are falsy), `tags` is
`data.tags || []`, and the remaining fields are passed through. -/
def mkPost (id : Nat) (filename : String) (fm : FrontMatter) (markdown : String) : Post :=
  { id := id
    slug := ⟨removeFirst ".md".data filename.data⟩
    title := fm.title
    date := fm.date
    excerpt := fm.excerpt
    content := markdown
    category :=
      match fm.category with
      | none => "General"
      | some c => if c == "" then "General" else c
    tags := fm.tags.getD [] }

/-- The loop condition `!category || post.category === category`: a `null`
filter and the (falsy) empty-string filter keep every post, otherwise the
category must be exactly equal. -/
def keepPost (category : Option String) (postCategory : String) : Bool :=
  match category with
  | none => true
  | some c => c == "" || postCategory == c

/-- The body of the `for` loop of `loadBlogPosts`, together with the `try`
block that surrounds the WHOLE loop: when parsing one document throws
(`parse content = none`), control jumps to the `catch` outside the loop, so
the documents after the failing one are never processed and the posts pushed
so far are returned. -/
def collectPosts (parse : String → Option (FrontMatter × String))
    (category : Option String) : List (String × String) → Nat → List Post
  | [], _ => []
  | (filename, content) :: rest, id =>
    match parse content with
    | none => []
    | some (fm, markdown) =>
      let post := mkPost id filename fm markdown
      if keepPost category post.category then
        post :: collectPosts parse category rest (id + 1)
      else
        collectPosts parse category rest (id + 1)

/-- Numeric key of a `YYYY-MM-DD` date string: order-isomorphic to the value
of `new Date(s)` for every valid ISO calendar date, `none` when the string is
not of this shape. -/
def parseISO : List Char → Option Nat
  | [y1, y2, y3, y4, s1, m1, m2, s2, d1, d2] =>
    if (y1.isDigit && y2.isDigit && y3.isDigit && y4.isDigit &&
        s1 == '-' && m1.isDigit && m2.isDigit && s2 == '-' &&
        d1.isDigit && d2.isDigit) then
      let y := ((((y1.toNat - 48) * 10 + (y2.toNat - 48)) * 10 + (y3.toNat - 48)) * 10
                + (y4.toNat - 48))
      let m := (m1.toNat - 48) * 10 + (m2.toNat - 48)
      let d := (d1.toNat - 48) * 10 + (d2.toNat - 48)
      if 1 ≤ m && m ≤ 12 && 1 ≤ d && d ≤ 31 then
        some (y * 10000 + m * 100 + d)
      else none
    else none
  | _ => none

/-- `dateVal s` is the sort key of the date string `s`. -/
def dateVal (s : String) : Option Nat := parseISO s.data

/-- The comparator key used by `posts.sort((a, b) => new Date(b.date) - new
Date(a.date))`; an absent or unparseable date gets the junk key 0 (all claims
about the order assume valid dates). -/
def sortKey (p : Post) : Nat := (p.date.bind dateVal).getD 0

/-- The descending-date order imposed by the comparator. -/
def dateDescOrder (a b : Post) : Prop := sortKey b ≤ sortKey a

instance : DecidableRel dateDescOrder :=
  fun a b => inferInstanceAs (Decidable (sortKey b ≤ sortKey a))

instance : IsTotal Post dateDescOrder :=
  ⟨fun a b => le_total (sortKey b) (sortKey a)⟩

instance : IsTrans Post dateDescOrder :=
  ⟨fun _ _ _ h1 h2 => le_trans h2 h1⟩

/-- `posts.sort(...)`: a stable sort by descending date. -/
def sortPosts (l : List Post) : List Post := List.insertionSort dateDescOrder l

/-- `loadBlogPosts(category)` of `blogLoader.js`, parameterized over the
front-matter parse oracle and the bundled document table. -/
def loadBlogPosts (parse : String → Option (FrontMatter × String))
    (docs : List (String × String)) (category : Option String) : List Post :=
  sortPosts (collectPosts parse category docs 1)

/-- `[...new Set(l)]` of JavaScript: deduplication keeping first
occurrences.  `seen` is the set of values already emitted. -/
def firstDedup (seen : List String) : List String → List String
  | [] => []
  | c :: cs =>
    if seen.contains c then firstDedup seen cs
    else c :: firstDedup (c :: seen) cs

/-- `getCategories()` of `blogLoader.js`: the distinct categories of the
unfiltered load, sorted, with the literal `"All"` prepended. -/
def getCategories (parse : String → Option (FrontMatter × String))
    (docs : List (String × String)) : List String :=
  let posts := loadBlogPosts parse docs none
  let categories := firstDedup [] (posts.map Post.category)
  "All" :: List.insertionSort (fun a b : String => a ≤ b) categories

/-! ### The markdown renderer (`renderContent` of `BlogPost.jsx`) -/

/-- The block nodes the renderer emits (its JSX output, with the
presentation stripped away): level-2 and level-3 headings, paragraphs (as the
injected html string), one unordered list per flush, code blocks, and
images. -/
inductive Node where
  | h2 (text : String)
  | h3 (text : String)
  | para (html : String)
  | list (items : List String)
  | code (text : String)
  | image (alt : String) (src : String)
deriving DecidableEq

/-- The mutable accumulators of `renderContent`: the emitted nodes, the
pending paragraph fragments, the code-block flag with its buffered raw lines,
and the pending list items. -/
structure RState where
  elements : List Node
  currentParagraph : List (List Char)
  inCodeBlock : Bool
  codeLines : List (List Char)
  listItems : List (List Char)
deriving DecidableEq

/-- The renderer starts with empty accumulators. -/
def initState : RState := ⟨[], [], false, [], []⟩

/-- Flush the pending paragraph: fragments joined by single spaces into one
paragraph node; flushing an empty buffer is a no-op. -/
def flushParagraph (st : RState) : RState :=
  if st.currentParagraph.isEmpty then st
  else
    { st with
      elements := st.elements ++ [Node.para ⟨joinSep ' ' st.currentParagraph⟩]
      currentParagraph := [] }

/-- Flush the pending list items into one list node; flushing an empty buffer
is a no-op. -/
def flushList (st : RState) : RState :=
  if st.listItems.isEmpty then st
  else
    { st with
      elements := st.elements ++ [Node.list (st.listItems.map (fun l => (⟨l⟩ : String)))]
      listItems := [] }

/-- One step of the global regular-expression replace turning each
`**text**` into a strong span; the fuel bounds the recursion and
`length s` is always enough, because every match consumes at least four
characters. -/
def applyBoldAux : Nat → List Char → List Char
  | 0, s => s
  | fuel + 1, s =>
    match splitFirst "**".data s with
    | none => s
    | some (pre, rest) =>
      match splitFirst "**".data rest with
      | none => s
      | some (inner, rest2) =>
        pre ++ "<strong>".data ++ inner ++ "</strong>".data ++ applyBoldAux fuel rest2

/-- `text.replace` of each lazily matched `**text**` pair, globally, by a
strong span: the inline formatting of the renderer. -/
def applyBold (s : List Char) : List Char := applyBoldAux s.length s

/-- The test of the ordered-list branch, the anchored regular expression
one-or-more digits, a dot, one whitespace character. -/
def matchesOrdered (cs : List Char) : Bool :=
  let ds := cs.takeWhile Char.isDigit
  !ds.isEmpty &&
    (match cs.drop ds.length with
     | p :: w :: _ => p == '.' && jsWS w
     | _ => false)

/-- Strip the matched ordered-list marker: the digits, the dot and one
whitespace character. -/
def stripOrdered (cs : List Char) : List Char :=
  cs.drop ((cs.takeWhile Char.isDigit).length + 2)

/-- The unanchored image regular expression of the renderer, with its two
lazy capture groups: the first `![`, then the shortest stretch up to a `](`,
then the shortest stretch up to a `)`.  Returns the two captures. -/
def jsImageMatch (cs : List Char) : Option (List Char × List Char) :=
  match splitFirst "![".data cs with
  | none => none
  | some (_, rest1) =>
    match splitFirst "](".data rest1 with
    | none => none
    | some (alt, rest2) =>
      match splitFirst ")".data rest2 with
      | none => none
      | some (src, _) => some (alt, src)

/-- The body of the `lines.forEach` of `renderContent`, one line at a time,
with the branches in source order: fence toggle, verbatim code line, level-2
heading, level-3 heading, ordered-list marker, bullet marker, blank line,
image line, and plain paragraph text. -/
def processLine (st : RState) (line : List Char) : RState :=
  if leadsWith "```".data line then
    if st.inCodeBlock then
      { st with
        elements := st.elements ++ [Node.code ⟨joinSep '\n' st.codeLines⟩]
        codeLines := []
        inCodeBlock := false }
    else
      { flushList (flushParagraph st) with inCodeBlock := true }
  else if st.inCodeBlock then
    { st with codeLines := st.codeLines ++ [line] }
  else if leadsWith "## ".data line then
    let st1 := flushList (flushParagraph st)
    { st1 with elements := st1.elements ++ [Node.h2 ⟨line.drop 3⟩] }
  else if leadsWith "### ".data line then
    let st1 := flushList (flushParagraph st)
    { st1 with elements := st1.elements ++ [Node.h3 ⟨line.drop 4⟩] }
  else if matchesOrdered line then
    let st1 := flushParagraph st
    { st1 with listItems := st1.listItems ++ [applyBold (stripOrdered line)] }
  else if leadsWith "- ".data line || leadsWith "* ".data line then
    let st1 := flushParagraph st
    { st1 with listItems := st1.listItems ++ [applyBold (line.drop 2)] }
  else if line.all jsWS then
    flushList (flushParagraph st)
  else
    match jsImageMatch line with
    | some (alt, src) =>
      let st1 := flushList (flushParagraph st)
      { st1 with elements := st1.elements ++ [Node.image ⟨alt⟩ ⟨src⟩] }
    | none =>
      { st with currentParagraph := st.currentParagraph ++ [applyBold line] }

/-- The flush after the last line: a still-pending paragraph first, then a
still-pending list; the code buffer is NOT flushed. -/
def finishRender (st : RState) : List Node :=
  (flushList (flushParagraph st)).elements

/-- Run the renderer over a list of lines. -/
def renderLines (lines : List (List Char)) : List Node :=
  finishRender (lines.foldl processLine initState)

/-- `renderContent(markdown)` of `BlogPost.jsx`: split on newlines, fold the
per-line classifier, flush what remains. -/
def renderContent (markdown : String) : List Node :=
  renderLines (splitLines markdown.data)

/-- A line none of the recognized branches accepts: not a fence, not a
heading, not a list marker, not blank, not an image — it degrades to
paragraph text. -/
def plainLine (cs : List Char) : Bool :=
  !leadsWith "```".data cs && !leadsWith "## ".data cs && !leadsWith "### ".data cs &&
  !matchesOrdered cs && !leadsWith "- ".data cs && !leadsWith "* ".data cs &&
  !cs.all jsWS && !(jsImageMatch cs).isSome

/-! ### Concrete instances used by witnesses and counterexamples -/

/-- Front matter of a small well-formed document. -/
def cx1Fm : FrontMatter := ⟨some "Good post", some "2024-05-05", some "intro", some "Cloud", some []⟩

/-- A parse oracle for which the content `"gooddoc"` parses and everything
else (in particular `"baddoc"`) throws. -/
def cx1Parse : String → Option (FrontMatter × String) :=
  fun c => if c == "gooddoc" then some (cx1Fm, "good body") else none

/-- A content table whose first document fails to parse and whose second
document would parse fine. -/
def cx1Docs : List (String × String) := [("bad.md", "baddoc"), ("good.md", "gooddoc")]

/-- Front matter dated 2024-01-02, category CatA. -/
def cw2Fm1 : FrontMatter := ⟨some "A", some "2024-01-02", some "a", some "CatA", none⟩

/-- Front matter dated 2025-03-04, category CatB. -/
def cw2Fm2 : FrontMatter := ⟨some "B", some "2025-03-04", some "b", some "CatB", none⟩

/-- A parse oracle with two well-formed documents of distinct dates. -/
def cw2Parse : String → Option (FrontMatter × String) :=
  fun c =>
    if c == "d1" then some (cw2Fm1, "b1")
    else if c == "d2" then some (cw2Fm2, "b2")
    else none

/-- Two documents in ascending date order (the loader must emit them
descending). -/
def cw2Docs : List (String × String) := [("d1.md", "d1"), ("d2.md", "d2")]

/-- Front matter with the nonempty category `"Tech"`. -/
def cx3Fm : FrontMatter := ⟨some "T", some "2024-01-01", some "e", some "Tech", some []⟩

/-- A parse oracle with one well-formed document of category `"Tech"`. -/
def cx3Parse : String → Option (FrontMatter × String) :=
  fun c => if c == "doc" then some (cx3Fm, "body") else none

/-- One document of category `"Tech"`. -/
def cx3Docs : List (String × String) := [("t.md", "doc")]

/-- A parse oracle with two documents of categories `"Tech"` and `"AI"`. -/
def cw4Parse : String → Option (FrontMatter × String) :=
  fun c =>
    if c == "doc1" then some (⟨some "T", some "2024-01-01", some "e", some "Tech", none⟩, "b1")
    else if c == "doc2" then some (⟨some "U", some "2024-02-02", some "f", some "AI", none⟩, "b2")
    else none

/-- Two documents of categories `"Tech"` and `"AI"`. -/
def cw4Docs : List (String × String) := [("t.md", "doc1"), ("u.md", "doc2")]

/-- A renderer state inside a code block with two buffered raw lines. -/
def cw5St : RState := ⟨[], [], true, ["ab".data, "cd".data], []⟩

/-- Front matter that omits both the category and the tags field. -/
def cw8Fm : FrontMatter := ⟨some "T", some "2024-01-01", some "x", none, none⟩

/-! ### Loader lemmas -/

theorem keepPost_none (c : String) : keepPost none c = true := rfl

theorem keepPost_empty (c : String) : keepPost (some "") c = true := by
  simp [keepPost]

theorem collectPosts_emptyFilter (parse : String → Option (FrontMatter × String)) :
    ∀ (docs : List (String × String)) (id : Nat),
      collectPosts parse (some "") docs id = collectPosts parse none docs id
  | [], _ => rfl
  | (fn, ct) :: rest, id => by
    simp only [collectPosts]
    cases parse ct with
    | none => rfl
    | some v =>
      simp only [keepPost_empty, keepPost_none, if_true,
        collectPosts_emptyFilter parse rest (id + 1)]

theorem collectPosts_stops (parse : String → Option (FrontMatter × String))
    (cat : Option String) (bn bc : String) (rest : List (String × String))
    (hbad : parse bc = none) :
    ∀ (pre : List (String × String)) (id : Nat),
      collectPosts parse cat (pre ++ (bn, bc) :: rest) id = collectPosts parse cat pre id
  | [], id => by
    simp only [List.nil_append, collectPosts, hbad]
  | (fn, ct) :: pre, id => by
    simp only [List.cons_append, collectPosts]
    cases parse ct with
    | none => rfl
    | some v =>
      simp only [List.append_eq, collectPosts_stops parse cat bn bc rest hbad pre (id + 1)]

/-! ### Claim theorems: the loader -/

/-- Claim C10: calling `loadBlogPosts` with the empty string as the category
filter behaves exactly as the unfiltered call, because the empty string is
falsy in the loop condition `!category || post.category === category`. -/
theorem loadBlogPosts_emptyFilter (parse : String → Option (FrontMatter × String))
    (docs : List (String × String)) :
    loadBlogPosts parse docs (some "") = loadBlogPosts parse docs none := by
  unfold loadBlogPosts
  rw [collectPosts_emptyFilter]

/-- Claim C1, counterexample: the `try` block of `loadBlogPosts` wraps the
whole document loop, so the parse failure of `bad.md` aborts the loop and the
perfectly parseable `good.md` that follows it yields NO post: the claim that
every other successfully parsed document still yields exactly one post is
false. -/
theorem loadBlogPosts_abort_cx :
    cx1Parse "gooddoc" = some (cx1Fm, "good body") ∧
    loadBlogPosts cx1Parse cx1Docs none = [] := by
  constructor
  · rfl
  · decide

/-- Claim C1, amended: a parse failure does not throw out of `loadBlogPosts`
and does not lose the posts already collected, but it stops the load: the
result is exactly the (sorted, filtered) posts of the documents BEFORE the
failing one, and the failing document together with every later document is
excluded. -/
theorem loadBlogPosts_abortsAtFailure (parse : String → Option (FrontMatter × String))
    (cat : Option String) (bn bc : String) (pre rest : List (String × String))
    (hbad : parse bc = none) :
    loadBlogPosts parse (pre ++ (bn, bc) :: rest) cat = loadBlogPosts parse pre cat := by
  unfold loadBlogPosts
  rw [collectPosts_stops parse cat bn bc rest hbad]

/-- Witness for the amended claim C1 at a concrete failing document. -/
theorem loadBlogPosts_abortsAtFailure_w :
    loadBlogPosts cx1Parse ([("good.md", "gooddoc")] ++ ("bad.md", "baddoc") :: [("g2.md", "gooddoc")]) none
      = loadBlogPosts cx1Parse [("good.md", "gooddoc")] none :=
  loadBlogPosts_abortsAtFailure cx1Parse none "bad.md" "baddoc" _ _ (by decide)

/-- Claim C8: a document whose front matter omits `category` gets the default
`"General"`, one that omits `tags` gets the empty sequence, and the title,
date, excerpt and body are carried through unchanged. -/
theorem mkPost_defaults (id : Nat) (fn : String) (fm : FrontMatter) (md : String) :
    (fm.category = none → (mkPost id fn fm md).category = "General") ∧
    (fm.tags = none → (mkPost id fn fm md).tags = []) ∧
    (mkPost id fn fm md).title = fm.title ∧
    (mkPost id fn fm md).date = fm.date ∧
    (mkPost id fn fm md).excerpt = fm.excerpt ∧
    (mkPost id fn fm md).content = md := by
  refine ⟨fun h => ?_, fun h => ?_, rfl, rfl, rfl, rfl⟩
  · simp [mkPost, h]
  · simp [mkPost, h, Option.getD]

/-- Witness for claim C8 on a concrete document omitting both fields. -/
theorem mkPost_defaults_w :
    (mkPost 1 "a.md" cw8Fm "body").category = "General" ∧
    (mkPost 1 "a.md" cw8Fm "body").tags = [] :=
  ⟨(mkPost_defaults 1 "a.md" cw8Fm "body").1 rfl,
   (mkPost_defaults 1 "a.md" cw8Fm "body").2.1 rfl⟩

/-- Claim C2: the returned sequence is sorted by date descending, for every
filter, whenever all the dates of the returned posts are valid calendar
dates: for adjacent posts the later one has the smaller or equal date key. -/
theorem loadBlogPosts_sorted (parse : String → Option (FrontMatter × String))
    (docs : List (String × String)) (category : Option String)
    (_h : ∀ p ∈ loadBlogPosts parse docs category, (p.date.bind dateVal).isSome = true) :
    (loadBlogPosts parse docs category).Chain'
      (fun p1 p2 => ∀ k1 k2, p1.date.bind dateVal = some k1 →
        p2.date.bind dateVal = some k2 → k2 ≤ k1) := by
  have hs : List.Sorted dateDescOrder (loadBlogPosts parse docs category) := by
    unfold loadBlogPosts sortPosts
    exact List.sorted_insertionSort dateDescOrder _
  refine List.Pairwise.chain' (List.Pairwise.imp ?_ hs)
  intro a b hab k1 k2 h1 h2
  have hkey : sortKey b ≤ sortKey a := hab
  simpa [sortKey, h1, h2] using hkey

/-- Witness for claim C2 on two concrete dated documents. -/
theorem loadBlogPosts_sorted_w :
    (loadBlogPosts cw2Parse cw2Docs none).Chain'
      (fun p1 p2 => ∀ k1 k2, p1.date.bind dateVal = some k1 →
        p2.date.bind dateVal = some k2 → k2 ≤ k1) :=
  loadBlogPosts_sorted cw2Parse cw2Docs none (by decide)

theorem collectPosts_filterEq (parse : String → Option (FrontMatter × String))
    (c : String) (hc : (c == "") = false) :
    ∀ (docs : List (String × String)) (id : Nat),
      collectPosts parse (some c) docs id
        = (collectPosts parse none docs id).filter (fun p => p.category == c)
  | [], _ => rfl
  | (fn, ct) :: rest, id => by
    simp only [collectPosts]
    cases parse ct with
    | none => rfl
    | some v =>
      simp only [keepPost, keepPost_none, hc, Bool.false_or, if_true,
        collectPosts_filterEq parse c hc rest (id + 1)]
      by_cases hcat : ((mkPost id fn v.1 v.2).category == c) = true
      · simp [hcat, List.filter_cons]
      · simp only [Bool.not_eq_true] at hcat
        simp [hcat, List.filter_cons]

theorem filter_orderedInsert_neg (P : Post → Bool) (a : Post) (ha : P a = false) :
    ∀ L : List Post,
      (List.orderedInsert dateDescOrder a L).filter P = L.filter P
  | [] => by simp [List.orderedInsert, ha]
  | b :: L => by
    simp only [List.orderedInsert]
    by_cases hab : dateDescOrder a b
    · rw [if_pos hab]
      simp [List.filter_cons, ha]
    · rw [if_neg hab]
      simp only [List.filter_cons, filter_orderedInsert_neg P a ha L]

theorem filter_orderedInsert_pos (P : Post → Bool) (a : Post) (ha : P a = true) :
    ∀ L : List Post, L.Sorted dateDescOrder →
      (List.orderedInsert dateDescOrder a L).filter P
        = List.orderedInsert dateDescOrder a (L.filter P)
  | [], _ => by simp [List.orderedInsert, ha]
  | b :: L, hs => by
    simp only [List.orderedInsert]
    by_cases hab : dateDescOrder a b
    · rw [if_pos hab]
      by_cases hb : P b = true
      · simp [List.filter_cons, ha, hb, List.orderedInsert, if_pos hab]
      · simp only [Bool.not_eq_true] at hb
        simp only [List.filter_cons, ha, hb, if_pos, if_true, if_false]
        cases hL : L.filter P with
        | nil => simp [List.orderedInsert]
        | cons cHead cTail =>
          have hcL : cHead ∈ L := by
            have : cHead ∈ L.filter P := by
              rw [hL]; exact List.mem_cons_self _ _
            exact List.mem_of_mem_filter this
          have hbc : dateDescOrder b cHead := List.rel_of_sorted_cons hs cHead hcL
          have hac : dateDescOrder a cHead := le_trans hbc hab
          simp [List.orderedInsert, if_pos hac]
    · rw [if_neg hab]
      by_cases hb : P b = true
      · simp only [List.filter_cons, hb, if_true,
          filter_orderedInsert_pos P a ha L hs.of_cons]
        simp [List.orderedInsert, if_neg hab]
      · simp only [Bool.not_eq_true] at hb
        simp [List.filter_cons, hb, filter_orderedInsert_pos P a ha L hs.of_cons]

theorem filter_insertionSort (P : Post → Bool) :
    ∀ l : List Post,
      (List.insertionSort dateDescOrder l).filter P
        = List.insertionSort dateDescOrder (l.filter P)
  | [] => rfl
  | a :: l => by
    simp only [List.insertionSort, List.filter_cons]
    by_cases ha : P a = true
    · rw [if_pos ha]
      rw [filter_orderedInsert_pos P a ha _ (List.sorted_insertionSort _ _)]
      rw [filter_insertionSort P l]
      simp [List.insertionSort]
    · simp only [Bool.not_eq_true] at ha
      rw [if_neg (by simp [ha])]
      rw [filter_orderedInsert_neg P a ha _]
      exact filter_insertionSort P l

/-- The load with a nonempty category filter is exactly the unfiltered load
filtered to that category (same posts, same ids, same order). -/
theorem loadBlogPosts_filterEq (parse : String → Option (FrontMatter × String))
    (docs : List (String × String)) (c : String) (hc : c ≠ "") :
    loadBlogPosts parse docs (some c)
      = (loadBlogPosts parse docs none).filter (fun p => p.category == c) := by
  have hcb : (c == "") = false := by
    simpa using hc
  unfold loadBlogPosts sortPosts
  rw [collectPosts_filterEq parse c hcb docs 1, filter_insertionSort]

/-- Claim C3, amended with `c` nonempty: for every non-null NONEMPTY string
`c` the filtered load is a subsequence of the unfiltered one, every element
of it has category exactly `c`, and it contains every unfiltered post of
category `c`.  (For the empty string the loop condition is falsy and no
filtering happens, see the counterexample.) -/
theorem loadBlogPosts_filtered (parse : String → Option (FrontMatter × String))
    (docs : List (String × String)) (c : String) (hc : c ≠ "") :
    (loadBlogPosts parse docs (some c)).Sublist (loadBlogPosts parse docs none) ∧
    (∀ p ∈ loadBlogPosts parse docs (some c), p.category = c) ∧
    (∀ p ∈ loadBlogPosts parse docs none, p.category = c →
      p ∈ loadBlogPosts parse docs (some c)) := by
  have key := loadBlogPosts_filterEq parse docs c hc
  refine ⟨?_, ?_, ?_⟩
  · rw [key]
    exact List.filter_sublist _
  · intro p hp
    rw [key] at hp
    have := List.of_mem_filter hp
    simpa using this
  · intro p hp hcat
    rw [key]
    exact List.mem_filter.mpr ⟨hp, by simp [hcat]⟩

/-- Claim C3, counterexample: with the filter `c = ""` (a non-null string)
the load keeps a post whose category is `"Tech"`, so it is not true that for
every non-null string `c` every returned element has category exactly `c`. -/
theorem loadBlogPosts_filtered_cx :
    ((loadBlogPosts cx3Parse cx3Docs (some "")).all (fun p => p.category == "")) = false := by
  decide

/-- Witness for the amended claim C3 at the concrete filter `"Tech"`. -/
theorem loadBlogPosts_filtered_w :
    (loadBlogPosts cx3Parse cx3Docs (some "Tech")).Sublist (loadBlogPosts cx3Parse cx3Docs none) ∧
    (∀ p ∈ loadBlogPosts cx3Parse cx3Docs (some "Tech"), p.category = "Tech") ∧
    (∀ p ∈ loadBlogPosts cx3Parse cx3Docs none, p.category = "Tech" →
      p ∈ loadBlogPosts cx3Parse cx3Docs (some "Tech")) :=
  loadBlogPosts_filtered cx3Parse cx3Docs "Tech" (by decide)

/-! ### Renderer lemmas -/

theorem flushParagraph_cp (st : RState) : (flushParagraph st).currentParagraph = [] := by
  unfold flushParagraph
  split
  · next h => simpa [List.isEmpty_iff] using h
  · rfl

theorem flushParagraph_items (st : RState) : (flushParagraph st).listItems = st.listItems := by
  unfold flushParagraph
  split <;> rfl

theorem flushParagraph_inCode (st : RState) : (flushParagraph st).inCodeBlock = st.inCodeBlock := by
  unfold flushParagraph
  split <;> rfl

theorem flushParagraph_code (st : RState) : (flushParagraph st).codeLines = st.codeLines := by
  unfold flushParagraph
  split <;> rfl

theorem flushList_cp (st : RState) : (flushList st).currentParagraph = st.currentParagraph := by
  unfold flushList
  split <;> rfl

theorem flushList_items (st : RState) : (flushList st).listItems = [] := by
  unfold flushList
  split
  · next h => simpa [List.isEmpty_iff] using h
  · rfl

theorem flushList_inCode (st : RState) : (flushList st).inCodeBlock = st.inCodeBlock := by
  unfold flushList
  split <;> rfl

theorem flushList_code (st : RState) : (flushList st).codeLines = st.codeLines := by
  unfold flushList
  split <;> rfl

theorem finishRender_flushed (st : RState) (hcp : st.currentParagraph = [])
    (hit : st.listItems = []) : finishRender st = st.elements := by
  unfold finishRender flushParagraph flushList
  simp [hcp, hit]

theorem leadsWith_cons_iff {p : Char} {ps cs : List Char} :
    leadsWith (p :: ps) cs = true ↔ ∃ tail, cs = p :: tail ∧ leadsWith ps tail = true := by
  cases cs with
  | nil => simp [leadsWith]
  | cons c cs =>
    simp only [leadsWith, Bool.and_eq_true, beq_iff_eq, List.cons.injEq]
    constructor
    · rintro ⟨rfl, h⟩
      exact ⟨cs, ⟨rfl, rfl⟩, h⟩
    · rintro ⟨tail, ⟨rfl, rfl⟩, h⟩
      exact ⟨rfl, h⟩

theorem leadsWith_false_of_head {pat : List Char} {p : Char} {ps : List Char}
    (hpat : pat = p :: ps) {c : Char} (cs : List Char) (h : (p == c) = false) :
    leadsWith pat (c :: cs) = false := by
  subst hpat
  simp [leadsWith, h]

theorem isDigit_beq_false {c : Char} (h : c.isDigit = true) {d : Char}
    (hd : d.isDigit = false) : (d == c) = false := by
  cases hbc : (d == c) with
  | false => rfl
  | true =>
    have : d = c := eq_of_beq hbc
    subst this
    rw [h] at hd
    cases hd

theorem matchesOrdered_head {cs : List Char} (h : matchesOrdered cs = true) :
    ∃ c rest, cs = c :: rest ∧ c.isDigit = true := by
  cases cs with
  | nil => simp [matchesOrdered] at h
  | cons c rest =>
    by_cases hd : c.isDigit = true
    · exact ⟨c, rest, rfl, hd⟩
    · exfalso
      simp only [Bool.not_eq_true] at hd
      simp [matchesOrdered, List.takeWhile_cons, hd] at h

theorem matchesOrdered_false_of_head {c : Char} (rest : List Char) (h : c.isDigit = false) :
    matchesOrdered (c :: rest) = false := by
  simp [matchesOrdered, List.takeWhile_cons, h]

theorem digit_guards {c : Char} (rest : List Char) (h : c.isDigit = true) :
    leadsWith "```".data (c :: rest) = false ∧
    leadsWith "## ".data (c :: rest) = false ∧
    leadsWith "### ".data (c :: rest) = false := by
  refine ⟨?_, ?_, ?_⟩
  · exact leadsWith_false_of_head (by decide : "```".data = Char.ofNat 96 :: "``".data)
      rest (isDigit_beq_false h (by decide))
  · exact leadsWith_false_of_head (by decide : "## ".data = Char.ofNat 35 :: "# ".data)
      rest (isDigit_beq_false h (by decide))
  · exact leadsWith_false_of_head (by decide : "### ".data = Char.ofNat 35 :: "## ".data)
      rest (isDigit_beq_false h (by decide))

theorem takeWhile_digits_dot (ds rest : List Char) (h : ds.all Char.isDigit = true) :
    (ds ++ '.' :: rest).takeWhile Char.isDigit = ds := by
  induction ds with
  | nil => simp [List.takeWhile_cons]
  | cons d ds ih =>
    simp only [List.all_cons, Bool.and_eq_true] at h
    simp [List.takeWhile_cons, h.1, ih h.2]

theorem matchesOrdered_marker (ds tail : List Char) (hne : ds ≠ [])
    (h : ds.all Char.isDigit = true) :
    matchesOrdered (ds ++ '.' :: ' ' :: tail) = true := by
  unfold matchesOrdered
  rw [takeWhile_digits_dot ds _ h]
  simp [List.drop_left, List.isEmpty_iff, hne, jsWS]

theorem stripOrdered_marker (ds tail : List Char) (h : ds.all Char.isDigit = true) :
    stripOrdered (ds ++ '.' :: ' ' :: tail) = tail := by
  unfold stripOrdered
  rw [takeWhile_digits_dot ds _ h]
  rw [show ds ++ '.' :: ' ' :: tail = (ds ++ ['.', ' ']) ++ tail by simp]
  rw [show ds.length + 2 = (ds ++ ['.', ' ']).length by simp]
  exact List.drop_left _ _

/-! ### Claim theorems: the renderer -/

/-- Claim C5: a line starting with a triple-backtick fence toggles code-block
mode; entering flushes the pending paragraph and then the pending list;
inside a code block every non-fence line (whatever else it looks like) is
appended verbatim; exiting joins the buffered lines with newlines into
exactly one code-block node and clears the buffer. -/
theorem processLine_fence (st : RState) (line : List Char) :
    (leadsWith "```".data line = true → st.inCodeBlock = false →
      processLine st line = { flushList (flushParagraph st) with inCodeBlock := true }) ∧
    (leadsWith "```".data line = true → st.inCodeBlock = true →
      processLine st line =
        { st with
          elements := st.elements ++ [Node.code ⟨joinSep '\n' st.codeLines⟩]
          codeLines := []
          inCodeBlock := false }) ∧
    (leadsWith "```".data line = false → st.inCodeBlock = true →
      processLine st line = { st with codeLines := st.codeLines ++ [line] }) := by
  refine ⟨fun hf hc => ?_, fun hf hc => ?_, fun hf hc => ?_⟩
  · simp [processLine, hf, hc]
  · simp [processLine, hf, hc]
  · simp [processLine, hf, hc]

/-- Witness for claim C5: entering a fence (with a language tag) from a fresh
state, and closing a fence over two buffered lines. -/
theorem processLine_fence_w :
    processLine initState "```js".data
      = { flushList (flushParagraph initState) with inCodeBlock := true } ∧
    processLine cw5St "```".data
      = { cw5St with
          elements := cw5St.elements ++ [Node.code ⟨joinSep '\n' cw5St.codeLines⟩]
          codeLines := []
          inCodeBlock := false } :=
  ⟨(processLine_fence initState "```js".data).1 rfl rfl,
   (processLine_fence cw5St "```".data).2.1 rfl rfl⟩


/-- Claim C6: an ordered-list line (digits, dot, whitespace) or a bullet line
(`- ` or `* `) flushes the pending paragraph but NOT the list buffer, so
consecutive list lines of either style accumulate; the marker is stripped and
inline bold formatting applied to the item; and the concrete digits of an
ordered marker never influence the result. -/
theorem processLine_listMarkers (st : RState) (line : List Char)
    (hcode : st.inCodeBlock = false) :
    (matchesOrdered line = true →
      processLine st line
        = { flushParagraph st with listItems := st.listItems ++ [applyBold (stripOrdered line)] }) ∧
    ((leadsWith "- ".data line || leadsWith "* ".data line) = true →
      processLine st line
        = { flushParagraph st with listItems := st.listItems ++ [applyBold (line.drop 2)] }) ∧
    (∀ ds1 ds2 tail, ds1 ≠ [] → ds2 ≠ [] →
      ds1.all Char.isDigit = true → ds2.all Char.isDigit = true →
      processLine st (ds1 ++ '.' :: ' ' :: tail) = processLine st (ds2 ++ '.' :: ' ' :: tail)) := by
  have ordered : ∀ l, matchesOrdered l = true →
      processLine st l
        = { flushParagraph st with listItems := st.listItems ++ [applyBold (stripOrdered l)] } := by
    intro l hl
    obtain ⟨c, rest, rfl, hd⟩ := matchesOrdered_head hl
    obtain ⟨g1, g2, g3⟩ := digit_guards rest hd
    simp [processLine, g1, g2, g3, hcode, hl, flushParagraph_items]
  refine ⟨ordered line, ?_, ?_⟩
  · intro hb
    rcases Bool.or_eq_true_iff.mp hb with h | h
    · rw [show "- ".data = '-' :: [' '] from by decide] at h
      obtain ⟨t1, rfl, h1⟩ := leadsWith_cons_iff.mp h
      have g1 : leadsWith "```".data ('-' :: t1) = false :=
        leadsWith_false_of_head (by decide : "```".data = Char.ofNat 96 :: "``".data)
          t1 (by decide)
      have g2 : leadsWith "## ".data ('-' :: t1) = false :=
        leadsWith_false_of_head (by decide : "## ".data = Char.ofNat 35 :: "# ".data)
          t1 (by decide)
      have g3 : leadsWith "### ".data ('-' :: t1) = false :=
        leadsWith_false_of_head (by decide : "### ".data = Char.ofNat 35 :: "## ".data)
          t1 (by decide)
      have g4 : matchesOrdered ('-' :: t1) = false :=
        matchesOrdered_false_of_head t1 (by decide)
      simp [processLine, g1, g2, g3, g4, hcode, hb, flushParagraph_items]
    · rw [show "* ".data = '*' :: [' '] from by decide] at h
      obtain ⟨t1, rfl, h1⟩ := leadsWith_cons_iff.mp h
      have g1 : leadsWith "```".data ('*' :: t1) = false :=
        leadsWith_false_of_head (by decide : "```".data = Char.ofNat 96 :: "``".data)
          t1 (by decide)
      have g2 : leadsWith "## ".data ('*' :: t1) = false :=
        leadsWith_false_of_head (by decide : "## ".data = Char.ofNat 35 :: "# ".data)
          t1 (by decide)
      have g3 : leadsWith "### ".data ('*' :: t1) = false :=
        leadsWith_false_of_head (by decide : "### ".data = Char.ofNat 35 :: "## ".data)
          t1 (by decide)
      have g4 : matchesOrdered ('*' :: t1) = false :=
        matchesOrdered_false_of_head t1 (by decide)
      simp [processLine, g1, g2, g3, g4, hcode, hb, flushParagraph_items]
  · intro ds1 ds2 tail h1 h2 ha1 ha2
    rw [ordered _ (matchesOrdered_marker ds1 tail h1 ha1),
        ordered _ (matchesOrdered_marker ds2 tail h2 ha2),
        stripOrdered_marker ds1 tail ha1, stripOrdered_marker ds2 tail ha2]

/-- Witness for claim C6: a numbered line and a starred line appended from a
state holding one pending paragraph fragment and one pending list item, and
the marker digits 3 and 41 giving identical results. -/
theorem processLine_listMarkers_w :
    processLine ⟨[], ["p".data], false, [], ["old".data]⟩ "12. **a** b".data
      = { flushParagraph ⟨[], ["p".data], false, [], ["old".data]⟩ with
          listItems := ["old".data] ++ [applyBold (stripOrdered "12. **a** b".data)] } ∧
    processLine ⟨[], ["p".data], false, [], ["old".data]⟩ "* item".data
      = { flushParagraph ⟨[], ["p".data], false, [], ["old".data]⟩ with
          listItems := ["old".data] ++ [applyBold ("* item".data.drop 2)] } ∧
    processLine ⟨[], ["p".data], false, [], ["old".data]⟩ ("3".data ++ '.' :: ' ' :: "x".data)
      = processLine ⟨[], ["p".data], false, [], ["old".data]⟩ ("41".data ++ '.' :: ' ' :: "x".data) :=
  ⟨(processLine_listMarkers _ _ rfl).1 (by decide),
   (processLine_listMarkers _ _ rfl).2.1 (by decide),
   (processLine_listMarkers ⟨[], ["p".data], false, [], ["old".data]⟩ [] rfl).2.2
     "3".data "41".data "x".data (by decide) (by decide) (by decide) (by decide)⟩

theorem splitLines_ne_nil : ∀ cs : List Char, splitLines cs ≠ []
  | [] => by simp [splitLines]
  | c :: cs => by
    simp only [splitLines]
    split
    · simp
    · cases h : splitLines cs <;> simp

theorem processLine_plain (st : RState) (l : List Char) (hcode : st.inCodeBlock = false)
    (hpl : plainLine l = true) :
    processLine st l = { st with currentParagraph := st.currentParagraph ++ [applyBold l] } := by
  simp only [plainLine, Bool.and_eq_true, Bool.not_eq_true'] at hpl
  obtain ⟨⟨⟨⟨⟨⟨⟨h1, h2⟩, h3⟩, h4⟩, h5⟩, h6⟩, h7⟩, h8⟩ := hpl
  have h8' : jsImageMatch l = none := by
    cases him : jsImageMatch l with
    | none => rfl
    | some v => rw [him] at h8; simp at h8
  simp [processLine, h1, h2, h3, h4, h5, h6, h7, h8', hcode]

theorem foldl_plain (ls : List (List Char)) : ∀ st : RState, st.inCodeBlock = false →
    ls.all plainLine = true →
    ls.foldl processLine st
      = { st with currentParagraph := st.currentParagraph ++ ls.map applyBold } := by
  induction ls with
  | nil =>
    intro st _ _
    simp
  | cons l ls ih =>
    intro st hc hall
    simp only [List.all_cons, Bool.and_eq_true] at hall
    rw [List.foldl_cons, processLine_plain st l hc hall.1,
      ih { st with currentParagraph := st.currentParagraph ++ [applyBold l] } hc hall.2]
    simp

/-- Claim C7: the renderer is a total function of the input string, and an
input all of whose lines match none of the recognized constructs degrades to
exactly one plain paragraph: the lines (with only the bold rewriting
applied) joined by single spaces, never an error. -/
theorem renderContent_plain (s : String)
    (h : (splitLines s.data).all plainLine = true) :
    renderContent s = [Node.para ⟨joinSep ' ' ((splitLines s.data).map applyBold)⟩] := by
  unfold renderContent renderLines
  rw [foldl_plain _ initState rfl h]
  have hne : ((splitLines s.data).map applyBold).isEmpty = false := by
    cases he : splitLines s.data with
    | nil => exact absurd he (splitLines_ne_nil s.data)
    | cons a as => simp
  unfold finishRender flushParagraph flushList
  simp [initState, hne]

/-- Witness for claim C7: a line of unsupported markdown oddities stays one
paragraph (with its bold spans rewritten). -/
theorem renderContent_plain_w :
    renderContent "hello **world** and [stray ~~odd"
      = [Node.para ⟨joinSep ' '
          ((splitLines "hello **world** and [stray ~~odd".data).map applyBold)⟩] :=
  renderContent_plain "hello **world** and [stray ~~odd" (by decide)

theorem foldl_code (ls : List (List Char)) : ∀ st : RState, st.inCodeBlock = true →
    (∀ l ∈ ls, leadsWith "```".data l = false) →
    ls.foldl processLine st = { st with codeLines := st.codeLines ++ ls } := by
  induction ls with
  | nil =>
    intro st _ _
    simp
  | cons l ls ih =>
    intro st hc hall
    have hstep : processLine st l = { st with codeLines := st.codeLines ++ [l] } := by
      simp [processLine, hall l (List.mem_cons_self l ls), hc]
    rw [List.foldl_cons, hstep,
      ih { st with codeLines := st.codeLines ++ [l] } hc
        (fun x hx => hall x (List.mem_cons_of_mem _ hx))]
    simp

/-- Claim C9: when a code fence is opened and never closed again, every later
line is swallowed into the (never emitted) code buffer: the output equals the
output of the input truncated just before the fence, with no code-block node
for the buffered lines. -/
theorem renderLines_unclosedFence (L1 L2 : List (List Char)) (f : List Char)
    (hf : leadsWith "```".data f = true)
    (h1 : (L1.foldl processLine initState).inCodeBlock = false)
    (h2 : ∀ l ∈ L2, leadsWith "```".data l = false) :
    renderLines (L1 ++ f :: L2) = renderLines L1 := by
  unfold renderLines
  rw [List.foldl_append, List.foldl_cons]
  have hfence : processLine (L1.foldl processLine initState) f
      = { flushList (flushParagraph (L1.foldl processLine initState)) with inCodeBlock := true } := by
    simp [processLine, hf, h1]
  rw [hfence, foldl_code L2 _ rfl h2]
  rw [finishRender_flushed _
    (by rw [flushList_cp, flushParagraph_cp])
    (by exact flushList_items _)]
  rfl

/-- Witness for claim C9: a paragraph line, an opening fence with a language
tag, then a heading-looking and a list-looking line that are silently
dropped. -/
theorem renderLines_unclosedFence_w :
    renderLines (["hi there".data] ++ "```bash".data :: ["## gone".data, "- gone".data])
      = renderLines ["hi there".data] :=
  renderLines_unclosedFence ["hi there".data] ["## gone".data, "- gone".data]
    "```bash".data (by decide) (by decide) (by decide)

theorem firstDedup_mem : ∀ (seen l : List String) (x : String),
    x ∈ firstDedup seen l ↔ (x ∈ l ∧ x ∉ seen)
  | seen, [], x => by simp [firstDedup]
  | seen, c :: l, x => by
    simp only [firstDedup]
    by_cases hc : seen.contains c = true
    · rw [if_pos hc]
      rw [firstDedup_mem seen l x]
      have hcm : c ∈ seen := by simpa using hc
      constructor
      · rintro ⟨hx, hs⟩
        exact ⟨List.mem_cons_of_mem _ hx, hs⟩
      · rintro ⟨hx, hs⟩
        rcases List.mem_cons.mp hx with rfl | hx
        · exact absurd hcm hs
        · exact ⟨hx, hs⟩
    · rw [if_neg hc]
      have hcm : c ∉ seen := by simpa using (Bool.of_not_eq_true hc)
      by_cases hxc : x = c
      · subst hxc
        simp [hcm]
      · simp only [List.mem_cons, firstDedup_mem (c :: seen) l x]
        constructor
        · rintro (rfl | ⟨hx, hs⟩)
          · exact absurd rfl hxc
          · exact ⟨Or.inr hx, fun hmem => hs (Or.inr hmem)⟩
        · rintro ⟨rfl | hx, hs⟩
          · exact absurd rfl hxc
          · refine Or.inr ⟨hx, fun hmem => ?_⟩
            rcases hmem with rfl | hmem2
            · exact hxc rfl
            · exact hs hmem2

theorem firstDedup_nodup : ∀ (seen l : List String), (firstDedup seen l).Nodup
  | _, [] => List.nodup_nil
  | seen, c :: l => by
    simp only [firstDedup]
    by_cases hc : seen.contains c = true
    · rw [if_pos hc]
      exact firstDedup_nodup seen l
    · rw [if_neg hc]
      refine List.nodup_cons.mpr ⟨?_, firstDedup_nodup (c :: seen) l⟩
      intro hmem
      exact ((firstDedup_mem _ _ _).mp hmem).2 (List.mem_cons_self c seen)

/-- Claim C4: `getCategories` is `"All"` followed by the distinct categories
of the unfiltered load in lexicographic order, with no duplicates, whenever
no post itself carries the literal category `"All"` (true of the bundled
content). -/
theorem getCategories_spec (parse : String → Option (FrontMatter × String))
    (docs : List (String × String))
    (h : ∀ p ∈ loadBlogPosts parse docs none, p.category ≠ "All") :
    ∃ cs, getCategories parse docs = "All" :: cs ∧
      cs.Sorted (fun a b : String => a ≤ b) ∧
      ("All" :: cs).Nodup ∧
      (∀ x, x ∈ cs ↔ x ∈ (loadBlogPosts parse docs none).map Post.category) := by
  refine ⟨List.insertionSort (fun a b : String => a ≤ b)
    (firstDedup [] ((loadBlogPosts parse docs none).map Post.category)), rfl, ?_, ?_, ?_⟩
  · exact List.sorted_insertionSort _ _
  · have hperm := List.perm_insertionSort (fun a b : String => a ≤ b)
      (firstDedup [] ((loadBlogPosts parse docs none).map Post.category))
    refine List.nodup_cons.mpr ⟨?_, hperm.nodup_iff.mpr (firstDedup_nodup _ _)⟩
    intro hmem
    have hmem2 := (firstDedup_mem _ _ _).mp (hperm.mem_iff.mp hmem)
    obtain ⟨p, hp, hpcat⟩ := List.mem_map.mp hmem2.1
    exact h p hp hpcat
  · intro x
    have hperm := List.perm_insertionSort (fun a b : String => a ≤ b)
      (firstDedup [] ((loadBlogPosts parse docs none).map Post.category))
    rw [hperm.mem_iff, firstDedup_mem]
    simp

/-- Witness for claim C4 on two documents of categories Tech and AI: the
categories come back as All, AI, Tech. -/
theorem getCategories_spec_w :
    ∃ cs, getCategories cw4Parse cw4Docs = "All" :: cs ∧
      cs.Sorted (fun a b : String => a ≤ b) ∧
      ("All" :: cs).Nodup ∧
      (∀ x, x ∈ cs ↔ x ∈ (loadBlogPosts cw4Parse cw4Docs none).map Post.category) :=
  getCategories_spec cw4Parse cw4Docs (by decide)

end Blog
